import Mathlib

/-!
Shallow embedding of the sales-ledger core of `src/src/app.rs` (the
`TemplateApp` struct and its mutating operations), together with proofs of
the specification's claims about it.

Modelling conventions:
* `Vec<T>` becomes `List T` (push = append at the end, `pop` = `dropLast`).
* `chrono::Utc::now()` is modelled by a call counter `clock` stored in the
  state: the k-th call to the time source returns `clock + k` and the clock
  advances past every value handed out.  Distinct calls therefore yield
  distinct timestamps, which is the behaviour of a nanosecond wall clock.
* Rust panics (`unreachable!()` in the undo-of-reset reconstruction, and
  the unchecked `self.n -= 1` underflow) are modelled by `Option`: `none`
  is a trap.
* File persistence (`save_to_file` / `load_from_file`) never touches the
  in-memory fields and is out of scope per the spec; it is omitted.
-/

/-- `struct SoldFood { name: String, time: DateTime<Utc> }` (app.rs:39-42). -/
structure SoldFood where
  name : String
  time : Nat
deriving DecidableEq, Repr

/-- `enum Order { Food(SoldFood, usize), Reset }` (app.rs:21-24). -/
inductive Order where
  | Food : SoldFood → Nat → Order
  | Reset : Order
deriving DecidableEq, Repr

/-- The ledger-relevant fields of `struct TemplateApp` (app.rs:4-18):
`sold_food` (active units), `history` (event log), `n` (order quantity),
plus the `clock` modelling the external time source. -/
structure TemplateApp where
  sold_food : List SoldFood
  history : List Order
  n : Nat
  clock : Nat
deriving DecidableEq, Repr

/-- `impl Default for TemplateApp` (app.rs:26-36): empty ledger, `n = 3`. -/
def TemplateApp.init : TemplateApp :=
  { sold_food := [], history := [], n := 3, clock := 0 }

/-- The fixed catalog (app.rs:70 and app.rs:352). -/
def food_list : List String :=
  ["プレーン", "チョコ", "いちご", "はちみつ", "シナモン"]

/-- `TemplateApp::add_sold_food` (app.rs:45-63): push `n` freshly
timestamped copies of the item onto `sold_food` (one `now()` call per
copy), then push one `Order::Food` log entry holding a representative
`SoldFood` with its own, further `now()` timestamp and the quantity `n`. -/
def TemplateApp.add_sold_food (app : TemplateApp) (name : String) : TemplateApp :=
  { app with
    sold_food :=
      app.sold_food ++ (List.range app.n).map (fun i => ⟨name, app.clock + i⟩),
    history := app.history ++ [Order.Food ⟨name, app.clock + app.n⟩ app.n],
    clock := app.clock + app.n + 1 }

/-- `TemplateApp::sold_food_count` (app.rs:66-78): for each catalog item in
declaration order, the number of `sold_food` entries with that name. -/
def TemplateApp.sold_food_count (app : TemplateApp) : List (String × Nat) :=
  food_list.map (fun food =>
    (food, (app.sold_food.filter (fun f => f.name == food)).length))

/-- Body of `TemplateApp::get_last_history` (app.rs:214-224) on a plain
list: index of the last `Order::Reset`, via
`iter().enumerate().filter_map(..).last()`. -/
def lastResetIdx (h : List Order) : Option Nat :=
  (h.enum.filterMap (fun p =>
    match p.2 with
    | Order.Reset => some p.1
    | Order.Food _ _ => none)).getLast?

/-- `TemplateApp::get_last_history` (app.rs:214-224). -/
def TemplateApp.get_last_history (app : TemplateApp) : Option Nat :=
  lastResetIdx app.history

/-- The Reset menu button (app.rs:261-267): clear `sold_food`, append
`Order::Reset` to `history`. -/
def TemplateApp.resetOp (app : TemplateApp) : TemplateApp :=
  { app with sold_food := [], history := app.history ++ [Order.Reset] }

/-- The `+1` button (app.rs:334-339): `self.n += 1`. -/
def TemplateApp.plusOne (app : TemplateApp) : TemplateApp :=
  { app with n := app.n + 1 }

/-- The `-1` button (app.rs:343-348): `self.n -= 1`.  Unchecked `usize`
subtraction: on `n = 0` a debug build panics (modelled as `none`; a release
build wraps to `2^64 - 1` — either way the value is not clamped at 0). -/
def TemplateApp.minusOne (app : TemplateApp) : Option TemplateApp :=
  if app.n = 0 then none else some { app with n := app.n - 1 }

/-- The `for _ in 0..n { self.sold_food.pop(); }` loop of the undo
`Order::Food` branch (app.rs:377-379); `Vec::pop` on an empty vector is a
no-op, hence `dropLast`. -/
def popLoop (l : List SoldFood) : Nat → List SoldFood
  | 0 => l
  | k + 1 => (popLoop l k).dropLast

/-- One step of the reconstruction `flat_map` (app.rs:389-395 and
app.rs:403-409): a `Food(f, n)` entry yields `vec![f.clone(); n]`, a
`Reset` entry hits `unreachable!()` (modelled as `none`). -/
def orderUnits : Order → Option (List SoldFood)
  | Order.Food f k => some (List.replicate k f)
  | Order.Reset => none

/-- The slice of the log the reconstruction folds over (app.rs:384-411):
everything strictly after the last `Order::Reset`, or the whole log when no
`Reset` is present. -/
def tailSlice (h : List Order) : List Order :=
  match lastResetIdx h with
  | some n => h.drop (n + 1)
  | none => h

/-- The undo `Order::Reset` branch's reconstruction (app.rs:384-411):
`flat_map` of `orderUnits` over `tailSlice`; `none` models the
`unreachable!()` panic. -/
def rebuild (h : List Order) : Option (List SoldFood) :=
  ((tailSlice h).mapM orderUnits).map List.flatten

/-- The 取り消し (undo) button (app.rs:374-414): pop the last `history`
entry if any; on `Order::Food(_, n)` pop `n` elements off `sold_food`; on
`Order::Reset` rebuild `sold_food` from the log. `none` models a panic. -/
def TemplateApp.undoOp (app : TemplateApp) : Option TemplateApp :=
  match app.history.getLast? with
  | none => some app
  | some last =>
    let history' := app.history.dropLast
    match last with
    | Order.Food _ k =>
      some { app with history := history', sold_food := popLoop app.sold_food k }
    | Order.Reset =>
      (rebuild history').map (fun units =>
        { app with history := history', sold_food := units })

/-- The order-count displayed each frame (app.rs:308-310):
`history.len() as isize - get_last_history().map(|x| x as isize).unwrap_or(-1) - 1`. -/
def TemplateApp.orderCount (app : TemplateApp) : Int :=
  (app.history.length : Int) -
    (match app.get_last_history with
     | some x => (x : Int)
     | none => -1) - 1

/-- States reachable from the default ledger by the operations the UI can
issue: catalog-item sale buttons, Reset, undo (when it does not panic),
and the quantity `+1`/`-1` buttons (`-1` when it does not trap). -/
inductive Reachable : TemplateApp → Prop
  | init : Reachable TemplateApp.init
  | sale {a : TemplateApp} {name : String} :
      Reachable a → name ∈ food_list → Reachable (a.add_sold_food name)
  | reset {a : TemplateApp} : Reachable a → Reachable a.resetOp
  | undo {a b : TemplateApp} : Reachable a → a.undoOp = some b → Reachable b
  | plus {a : TemplateApp} : Reachable a → Reachable a.plusOne
  | minus {a b : TemplateApp} : Reachable a → a.minusOne = some b → Reachable b

/-- States reachable using only sales and resets (the operation set of the
reconstruction-correctness invariant). -/
inductive ReachableSR : TemplateApp → Prop
  | init : ReachableSR TemplateApp.init
  | sale {a : TemplateApp} {name : String} :
      ReachableSR a → name ∈ food_list → ReachableSR (a.add_sold_food name)
  | reset {a : TemplateApp} : ReachableSR a → ReachableSR a.resetOp

/-! ### Spec-side descriptions -/

/-- The units a log entry replicates to during reconstruction:
`Food(f, k)` contributes `k` copies of the stored representative `f`,
`Reset` contributes nothing. -/
def orderReps : Order → List SoldFood
  | Order.Food f k => List.replicate k f
  | Order.Reset => []

/-- The item names a log entry contributes to the active tally:
`k` copies of the item name for `Food(_, k)`, nothing for `Reset`. -/
def orderNames : Order → List String
  | Order.Food f k => List.replicate k f.name
  | Order.Reset => []

/-- The spec's description of the active tally: the concatenation, in log
order, of the per-event name replicas of every `Sale` strictly after the
last `Checkpoint` (or of the whole log when none exists). -/
def namesOfSlice (h : List Order) : List String :=
  ((tailSlice h).map orderNames).flatten

/-- A `Sale`-counting predicate on log entries. -/
def isSale : Order → Bool
  | Order.Food _ _ => true
  | Order.Reset => false

/-- The spec's order count: number of `Sale` events strictly after the last
`Checkpoint` (all of them when none exists). -/
def salesAfterLastReset (h : List Order) : Nat :=
  ((tailSlice h).filter isSale).length

/-! ### Helper lemmas on the log -/

theorem lastResetIdx_concat_reset (l : List Order) :
    lastResetIdx (l ++ [Order.Reset]) = some l.length := by
  simp [lastResetIdx, List.enum_append, List.filterMap_append, List.enumFrom,
    List.getLast?_concat]

theorem lastResetIdx_concat_food (l : List Order) (f : SoldFood) (k : Nat) :
    lastResetIdx (l ++ [Order.Food f k]) = lastResetIdx l := by
  simp [lastResetIdx, List.enum_append, List.filterMap_append, List.enumFrom]

theorem lastResetIdx_spec (h : List Order) :
    (lastResetIdx h = none → Order.Reset ∉ h) ∧
    ∀ n, lastResetIdx h = some n → n + 1 ≤ h.length ∧ Order.Reset ∉ h.drop (n + 1) := by
  induction h using List.reverseRecOn with
  | nil => simp [lastResetIdx]
  | append_singleton l a ih =>
    cases a with
    | Reset =>
      refine ⟨?_, ?_⟩
      · rw [lastResetIdx_concat_reset]; intro hc; cases hc
      · intro n hn
        rw [lastResetIdx_concat_reset] at hn
        injection hn with hn
        subst hn
        refine ⟨by simp, ?_⟩
        rw [List.drop_eq_nil_of_le (by simp)]
        simp
    | Food f k =>
      refine ⟨?_, ?_⟩
      · rw [lastResetIdx_concat_food]
        intro hnone hmem
        rcases List.mem_append.1 hmem with h1 | h1
        · exact ih.1 hnone h1
        · simp at h1
      · intro n hn
        rw [lastResetIdx_concat_food] at hn
        obtain ⟨hlt, hnot⟩ := ih.2 n hn
        refine ⟨by simp; omega, ?_⟩
        rw [List.drop_append_eq_append_drop]
        intro hmem
        rcases List.mem_append.1 hmem with h1 | h1
        · exact hnot h1
        · have hz : n + 1 - l.length = 0 := by omega
          rw [hz] at h1
          simp at h1

theorem reset_not_mem_tailSlice (h : List Order) : Order.Reset ∉ tailSlice h := by
  unfold tailSlice
  cases hl : lastResetIdx h with
  | none => exact (lastResetIdx_spec h).1 hl
  | some n => exact ((lastResetIdx_spec h).2 n hl).2

theorem tailSlice_concat_food (l : List Order) (f : SoldFood) (k : Nat) :
    tailSlice (l ++ [Order.Food f k]) = tailSlice l ++ [Order.Food f k] := by
  unfold tailSlice
  rw [lastResetIdx_concat_food]
  cases hl : lastResetIdx l with
  | none => rfl
  | some n =>
    have hlen := ((lastResetIdx_spec l).2 n hl).1
    show List.drop (n + 1) (l ++ [Order.Food f k]) = List.drop (n + 1) l ++ [Order.Food f k]
    rw [List.drop_append_eq_append_drop]
    have hz : n + 1 - l.length = 0 := by omega
    rw [hz, List.drop_zero]

theorem tailSlice_concat_reset (l : List Order) :
    tailSlice (l ++ [Order.Reset]) = [] := by
  unfold tailSlice
  rw [lastResetIdx_concat_reset]
  exact List.drop_eq_nil_of_le (by simp)

theorem mapM_orderUnits_eq (l : List Order) (hl : Order.Reset ∉ l) :
    l.mapM orderUnits = some (l.map orderReps) := by
  induction l with
  | nil => rfl
  | cons a t ih =>
    cases a with
    | Reset => exact absurd (List.mem_cons_self _ _) hl
    | Food f k =>
      have ht : Order.Reset ∉ t := fun hm => hl (List.mem_cons_of_mem _ hm)
      rw [List.mapM_cons, ih ht]
      rfl

theorem rebuild_eq (h : List Order) :
    rebuild h = some ((tailSlice h).map orderReps).flatten := by
  unfold rebuild
  rw [mapM_orderUnits_eq _ (reset_not_mem_tailSlice h)]
  rfl

theorem map_name_orderReps (o : Order) :
    (orderReps o).map SoldFood.name = orderNames o := by
  cases o <;> simp [orderReps, orderNames, List.map_replicate]

theorem rebuild_names (h : List Order) :
    (((tailSlice h).map orderReps).flatten).map SoldFood.name = namesOfSlice h := by
  unfold namesOfSlice
  rw [List.map_flatten, List.map_map]
  have hfun : List.map SoldFood.name ∘ orderReps = orderNames :=
    funext map_name_orderReps
  rw [hfun]

theorem popLoop_eq_take (l : List SoldFood) (k : Nat) :
    popLoop l k = l.take (l.length - k) := by
  induction k with
  | zero => simp [popLoop]
  | succ k ih =>
    rw [popLoop, ih, List.dropLast_eq_take, List.take_take, List.length_take]
    congr 1
    omega

/-! ### Case analysis of the undo operation -/

theorem undoOp_nil (a : TemplateApp) (h : a.history = []) : a.undoOp = some a := by
  unfold TemplateApp.undoOp
  rw [h]
  rfl

theorem undoOp_concat_food (a : TemplateApp) (l : List Order) (f : SoldFood) (k : Nat)
    (hh : a.history = l ++ [Order.Food f k]) :
    a.undoOp = some { a with
      history := l
      sold_food := a.sold_food.take (a.sold_food.length - k) } := by
  unfold TemplateApp.undoOp
  rw [hh, List.getLast?_concat]
  simp only [List.dropLast_concat, popLoop_eq_take]

theorem undoOp_concat_reset (a : TemplateApp) (l : List Order)
    (hh : a.history = l ++ [Order.Reset]) :
    a.undoOp = some { a with
      history := l
      sold_food := ((tailSlice l).map orderReps).flatten } := by
  unfold TemplateApp.undoOp
  rw [hh, List.getLast?_concat]
  simp only [List.dropLast_concat, rebuild_eq]
  rfl

/-! ### The ledger invariant -/

theorem add_preserves_inv {a : TemplateApp} (name : String)
    (ha : a.sold_food.map SoldFood.name = namesOfSlice a.history) :
    (a.add_sold_food name).sold_food.map SoldFood.name
      = namesOfSlice (a.add_sold_food name).history := by
  show (a.sold_food ++ (List.range a.n).map (fun i => (⟨name, a.clock + i⟩ : SoldFood))).map SoldFood.name
      = namesOfSlice (a.history ++ [Order.Food ⟨name, a.clock + a.n⟩ a.n])
  rw [List.map_append, ha]
  unfold namesOfSlice
  rw [tailSlice_concat_food, List.map_append, List.flatten_append]
  congr 1
  rw [List.map_map]
  show (List.range a.n).map (fun _ => name) = _
  rw [List.map_const', List.length_range]
  simp [orderNames]

theorem reset_preserves_inv (a : TemplateApp) :
    a.resetOp.sold_food.map SoldFood.name = namesOfSlice a.resetOp.history := by
  show ([] : List SoldFood).map SoldFood.name = namesOfSlice (a.history ++ [Order.Reset])
  unfold namesOfSlice
  rw [tailSlice_concat_reset]
  rfl

theorem undo_preserves_inv {a b : TemplateApp}
    (ha : a.sold_food.map SoldFood.name = namesOfSlice a.history)
    (h : a.undoOp = some b) :
    b.sold_food.map SoldFood.name = namesOfSlice b.history := by
  rcases List.eq_nil_or_concat a.history with hn | ⟨l, o, hcon⟩
  · rw [undoOp_nil a hn] at h
    injection h with h
    subst h
    exact ha
  · rw [List.concat_eq_append] at hcon
    cases o with
    | Food f k =>
      rw [undoOp_concat_food a l f k hcon] at h
      injection h with h
      subst h
      show (a.sold_food.take (a.sold_food.length - k)).map SoldFood.name = namesOfSlice l
      have hnames : a.sold_food.map SoldFood.name
          = namesOfSlice l ++ List.replicate k f.name := by
        rw [ha, hcon]
        unfold namesOfSlice
        rw [tailSlice_concat_food, List.map_append, List.flatten_append]
        simp [orderNames]
      have hlen : a.sold_food.length = (namesOfSlice l).length + k := by
        have h2 := congrArg List.length hnames
        simpa using h2
      rw [List.map_take, hnames]
      have hsub : a.sold_food.length - k = (namesOfSlice l).length := by omega
      rw [hsub, List.take_left]
    | Reset =>
      rw [undoOp_concat_reset a l hcon] at h
      injection h with h
      subst h
      exact rebuild_names l

theorem reachable_inv {a : TemplateApp} (h : Reachable a) :
    a.sold_food.map SoldFood.name = namesOfSlice a.history := by
  induction h with
  | init => rfl
  | sale _ _ ih => exact add_preserves_inv _ ih
  | reset _ ih => exact reset_preserves_inv _
  | undo _ hu ih => exact undo_preserves_inv ih hu
  | plus _ ih => exact ih
  | minus _ hu ih =>
    unfold TemplateApp.minusOne at hu
    split at hu
    · cases hu
    · injection hu with hu
      subst hu
      exact ih

theorem reachableSR_reachable {a : TemplateApp} (h : ReachableSR a) : Reachable a := by
  induction h with
  | init => exact Reachable.init
  | sale _ hmem ih => exact Reachable.sale ih hmem
  | reset _ ih => exact Reachable.reset ih

/-! ### Claims -/

/-- A state built by a sale, a reset and another sale, used to instantiate
the reconstruction invariant. -/
def c1ex : TemplateApp :=
  ((TemplateApp.init.add_sold_food "プレーン").resetOp).add_sold_food "チョコ"

/-- C1: for every ledger reachable by `add_sold_food`/reset operations from
the empty ledger, the active units are, item by item and in log order, the
replicated quantities of the `Sale` events strictly after the last
`Checkpoint` (all of them when none exists): each `Food(_, q)` event
contributes `q` units of its item. -/
theorem sale_reset_reconstruction_invariant (a : TemplateApp) (h : ReachableSR a) :
    a.sold_food.map SoldFood.name = namesOfSlice a.history :=
  reachable_inv (reachableSR_reachable h)

/-- Witness for C1 at a concrete sale-reset-sale state. -/
theorem sale_reset_reconstruction_invariant_witness :
    ReachableSR c1ex ∧ c1ex.sold_food.map SoldFood.name = namesOfSlice c1ex.history :=
  ⟨ReachableSR.sale (ReachableSR.reset
      (ReachableSR.sale ReachableSR.init (by decide))) (by decide),
   sale_reset_reconstruction_invariant c1ex
     (ReachableSR.sale (ReachableSR.reset
       (ReachableSR.sale ReachableSR.init (by decide))) (by decide))⟩

/-- One recorded sale of 3 プレーン units from the empty ledger. -/
def c2ex : TemplateApp := TemplateApp.init.add_sold_food "プレーン"

/-- C2 counterexample: after one sale, reset followed by undo does NOT
restore `sold_food` element-for-element: the rebuilt units carry the log
entry's representative timestamp, not the original per-unit timestamps, so
the conjunction "both `sold_food` and `history` are exactly restored"
fails at this concrete state. -/
theorem undo_of_reset_not_exact_counterexample :
    ¬ ((c2ex.resetOp.undoOp).map TemplateApp.sold_food = some c2ex.sold_food ∧
       (c2ex.resetOp.undoOp).map TemplateApp.history = some c2ex.history) := by
  decide

/-- C2 (amended): after reset then undo, the log is restored exactly (same
length and content), `n` is unchanged, and the active units are restored up
to their item-name sequence (same items, same counts, same order); the
rebuilt units' timestamps are the representative ones stored in the log,
not the original per-unit ones. -/
theorem undo_of_reset_roundtrip (a : TemplateApp) (h : Reachable a) :
    (a.resetOp.undoOp).map TemplateApp.history = some a.history ∧
    (a.resetOp.undoOp).map TemplateApp.n = some a.n ∧
    (a.resetOp.undoOp).map (fun b => b.sold_food.map SoldFood.name)
      = some (a.sold_food.map SoldFood.name) := by
  have hcon : a.resetOp.history = a.history ++ [Order.Reset] := rfl
  rw [undoOp_concat_reset a.resetOp a.history hcon]
  refine ⟨rfl, rfl, ?_⟩
  show some ((((tailSlice a.history).map orderReps).flatten).map SoldFood.name)
    = some (a.sold_food.map SoldFood.name)
  exact congrArg some ((rebuild_names a.history).trans (reachable_inv h).symm)

/-- Witness for C2's amended round-trip at a concrete one-sale state. -/
theorem undo_of_reset_roundtrip_witness :
    Reachable (TemplateApp.init.add_sold_food "チョコ") ∧
    (((TemplateApp.init.add_sold_food "チョコ").resetOp.undoOp).map TemplateApp.history
        = some (TemplateApp.init.add_sold_food "チョコ").history ∧
     ((TemplateApp.init.add_sold_food "チョコ").resetOp.undoOp).map TemplateApp.n
        = some (TemplateApp.init.add_sold_food "チョコ").n ∧
     ((TemplateApp.init.add_sold_food "チョコ").resetOp.undoOp).map
         (fun b => b.sold_food.map SoldFood.name)
        = some ((TemplateApp.init.add_sold_food "チョコ").sold_food.map SoldFood.name)) :=
  ⟨Reachable.sale Reachable.init (by decide),
   undo_of_reset_roundtrip (TemplateApp.init.add_sold_food "チョコ")
     (Reachable.sale Reachable.init (by decide))⟩

/-- C3: recording a sale and then undoing it restores `sold_food`,
`history` and `n` exactly, for any starting state, any item name and any
quantity (the quantity used is the current `n`, which is arbitrary). -/
theorem undo_of_sale (a : TemplateApp) (name : String) :
    ((a.add_sold_food name).undoOp).map (fun b => (b.sold_food, b.history, b.n))
      = some (a.sold_food, a.history, a.n) := by
  have hcon : (a.add_sold_food name).history
      = a.history ++ [Order.Food ⟨name, a.clock + a.n⟩ a.n] := rfl
  have htake : (a.add_sold_food name).sold_food.take
      ((a.add_sold_food name).sold_food.length - a.n) = a.sold_food := by
    show (a.sold_food ++ (List.range a.n).map
        (fun i => (⟨name, a.clock + i⟩ : SoldFood))).take
      ((a.sold_food ++ (List.range a.n).map
        (fun i => (⟨name, a.clock + i⟩ : SoldFood))).length - a.n) = a.sold_food
    rw [List.length_append, List.length_map, List.length_range, Nat.add_sub_cancel]
    exact List.take_left _ _
  rw [undoOp_concat_food _ _ _ _ hcon]
  show some ((a.add_sold_food name).sold_food.take
      ((a.add_sold_food name).sold_food.length - a.n), a.history, a.n)
    = some (a.sold_food, a.history, a.n)
  rw [htake]

/-- The concrete log `[Sale, Sale, Checkpoint, Sale]` of the order-count
example. -/
def c4ex : TemplateApp :=
  { sold_food := []
    history := [Order.Food ⟨"プレーン", 0⟩ 3, Order.Food ⟨"チョコ", 1⟩ 3,
      Order.Reset, Order.Food ⟨"いちご", 2⟩ 3]
    n := 3
    clock := 4 }

/-- C4: the displayed order count (`history.len - lastResetIdx.unwrap_or(-1) - 1`)
equals the number of `Sale` events strictly after the last `Checkpoint`
(all `Sale` events when none exists) — for every state, not only reachable
ones — and in particular it is 1 on the log `[Sale, Sale, Checkpoint, Sale]`. -/
theorem order_count_eq_sales_after_last_reset :
    (∀ a : TemplateApp, a.orderCount = (salesAfterLastReset a.history : Int)) ∧
    c4ex.orderCount = 1 := by
  constructor
  · intro a
    unfold TemplateApp.orderCount TemplateApp.get_last_history salesAfterLastReset
    have hfil : (tailSlice a.history).filter isSale = tailSlice a.history := by
      rw [List.filter_eq_self]
      intro o ho
      cases o with
      | Food f k => rfl
      | Reset => exact absurd ho (reset_not_mem_tailSlice a.history)
    rw [hfil]
    unfold tailSlice
    cases hl : lastResetIdx a.history with
    | none =>
      dsimp only
      omega
    | some n =>
      have hlen := ((lastResetIdx_spec a.history).2 n hl).1
      dsimp only
      rw [List.length_drop]
      omega
  · decide

/-- C5: the `-1` button performs unchecked `usize` subtraction; from the
default state (`n = 3`) three presses reach `n = 0`, and the fourth press
underflows (debug builds panic, release builds wrap to `2^64 - 1`) instead
of clamping at 0 or rejecting the change. -/
theorem minus_one_underflow :
    (((TemplateApp.init.minusOne.bind TemplateApp.minusOne).bind
      TemplateApp.minusOne).bind TemplateApp.minusOne) = none ∧
    TemplateApp.minusOne { TemplateApp.init with n := 0 } = none := by
  decide

/-- C6: undo on a ledger with an empty log is a no-op on the in-memory
state: it returns the very same state and does not fail. -/
theorem undo_on_empty_log (a : TemplateApp) (h : a.history = []) :
    a.undoOp = some a :=
  undoOp_nil a h

/-- Witness for C6 at the default (empty) ledger. -/
theorem undo_on_empty_log_witness :
    TemplateApp.init.history = [] ∧ TemplateApp.init.undoOp = some TemplateApp.init :=
  ⟨rfl, undo_on_empty_log TemplateApp.init rfl⟩

/-- C7: `sold_food_count` returns, for each of the five catalog items in
declaration order, the number of occurrences of that item's name among the
active units (it is a pure query of the state). -/
theorem sold_food_count_correct (a : TemplateApp) :
    a.sold_food_count = food_list.map (fun food =>
      (food, (a.sold_food.map SoldFood.name).count food)) := by
  unfold TemplateApp.sold_food_count
  apply List.map_congr_left
  intro food _
  congr 1
  rw [List.count_eq_countP, List.countP_map, List.countP_eq_length_filter]
  rfl

/-- A state whose log ends in a `Sale` of quantity 2 while only one active
unit remains. -/
def c8ex : TemplateApp :=
  { sold_food := [⟨"チョコ", 0⟩]
    history := [Order.Food ⟨"チョコ", 5⟩ 2]
    n := 3
    clock := 9 }

/-- C8: popping a `Sale{_, q}` event removes exactly `min q |sold_food|`
trailing elements from `sold_food` (all `q` when enough are present, all
remaining ones otherwise) and never fails. -/
theorem undo_of_sale_removes_min (a : TemplateApp) (l : List Order) (f : SoldFood) (k : Nat)
    (hh : a.history = l ++ [Order.Food f k]) :
    a.undoOp = some { a with
      history := l
      sold_food := a.sold_food.take (a.sold_food.length - k) } ∧
    a.sold_food.length - (a.sold_food.take (a.sold_food.length - k)).length
      = min k a.sold_food.length := by
  refine ⟨undoOp_concat_food a l f k hh, ?_⟩
  rw [List.length_take]
  omega

/-- Witness for C8 at a state with fewer active units than the popped
quantity: both remaining units are removed without failure. -/
theorem undo_of_sale_removes_min_witness :
    c8ex.history = [] ++ [Order.Food ⟨"チョコ", 5⟩ 2] ∧
    (c8ex.undoOp = some { c8ex with
        history := ([] : List Order)
        sold_food := c8ex.sold_food.take (c8ex.sold_food.length - 2) } ∧
      c8ex.sold_food.length - (c8ex.sold_food.take (c8ex.sold_food.length - 2)).length
        = min 2 c8ex.sold_food.length) :=
  ⟨rfl, undo_of_sale_removes_min c8ex [] ⟨"チョコ", 5⟩ 2 rfl⟩

/-- C9: the log slice strictly after the last remaining `Checkpoint` never
contains a `Checkpoint`, so the reconstruction's `unreachable!()` branch is
never executed and undo never panics — proved for every state (hence in
particular for every reachable one). -/
theorem undo_never_hits_unreachable :
    (∀ h : List Order, Order.Reset ∉ tailSlice h) ∧
    (∀ a : TemplateApp, (a.undoOp).isSome = true) := by
  refine ⟨reset_not_mem_tailSlice, ?_⟩
  intro a
  rcases List.eq_nil_or_concat a.history with hn | ⟨l, o, hcon⟩
  · rw [undoOp_nil a hn]
    rfl
  · rw [List.concat_eq_append] at hcon
    cases o with
    | Food f k =>
      rw [undoOp_concat_food a l f k hcon]
      rfl
    | Reset =>
      rw [undoOp_concat_reset a l hcon]
      rfl

/-- C10: a sale stamps each of the `n` appended units with its own fresh
timestamp (all pairwise distinct) and stores in the log one representative
unit with yet another timestamp; consequently undo-of-reset rebuilds
`sold_food` as `q` copies of the representative per `Sale` event, agreeing
with the pre-reset units in item names, counts and order. -/
theorem sale_timestamps_and_rebuild (a : TemplateApp) (name : String) (h : Reachable a) :
    ((a.add_sold_food name).sold_food.drop a.sold_food.length
      = (List.range a.n).map (fun i => (⟨name, a.clock + i⟩ : SoldFood))) ∧
    (((a.add_sold_food name).sold_food.drop a.sold_food.length).map SoldFood.time).Nodup ∧
    ((a.add_sold_food name).history.getLast?
      = some (Order.Food ⟨name, a.clock + a.n⟩ a.n)) ∧
    (a.clock + a.n) ∉
      ((a.add_sold_food name).sold_food.drop a.sold_food.length).map SoldFood.time ∧
    ((a.resetOp.undoOp).map TemplateApp.sold_food
      = some ((tailSlice a.history).map orderReps).flatten) ∧
    ((a.resetOp.undoOp).map (fun b => b.sold_food.map SoldFood.name)
      = some (a.sold_food.map SoldFood.name)) := by
  have hdrop : (a.add_sold_food name).sold_food.drop a.sold_food.length
      = (List.range a.n).map (fun i => (⟨name, a.clock + i⟩ : SoldFood)) := by
    show (a.sold_food ++ (List.range a.n).map
        (fun i => (⟨name, a.clock + i⟩ : SoldFood))).drop a.sold_food.length = _
    exact List.drop_left _ _
  have htimes : ((a.add_sold_food name).sold_food.drop a.sold_food.length).map SoldFood.time
      = (List.range a.n).map (fun i => a.clock + i) := by
    rw [hdrop, List.map_map]
    rfl
  refine ⟨hdrop, ?_, ?_, ?_, ?_, ?_⟩
  · rw [htimes]
    refine List.Nodup.map ?_ (List.nodup_range a.n)
    intro i j hij
    dsimp only at hij
    omega
  · exact List.getLast?_concat _
  · rw [htimes]
    intro hmem
    rcases List.mem_map.1 hmem with ⟨i, hi, hie⟩
    rw [List.mem_range] at hi
    omega
  · rw [undoOp_concat_reset a.resetOp a.history rfl]
    rfl
  · rw [undoOp_concat_reset a.resetOp a.history rfl]
    show some ((((tailSlice a.history).map orderReps).flatten).map SoldFood.name)
      = some (a.sold_food.map SoldFood.name)
    exact congrArg some ((rebuild_names a.history).trans (reachable_inv h).symm)

/-- Witness for C10 at the default ledger and the item はちみつ. -/
theorem sale_timestamps_and_rebuild_witness :
    Reachable TemplateApp.init ∧
    (((TemplateApp.init.add_sold_food "はちみつ").sold_food.drop
        TemplateApp.init.sold_food.length
      = (List.range TemplateApp.init.n).map
        (fun i => (⟨"はちみつ", TemplateApp.init.clock + i⟩ : SoldFood))) ∧
    (((TemplateApp.init.add_sold_food "はちみつ").sold_food.drop
        TemplateApp.init.sold_food.length).map SoldFood.time).Nodup ∧
    ((TemplateApp.init.add_sold_food "はちみつ").history.getLast?
      = some (Order.Food ⟨"はちみつ", TemplateApp.init.clock + TemplateApp.init.n⟩
          TemplateApp.init.n)) ∧
    (TemplateApp.init.clock + TemplateApp.init.n) ∉
      ((TemplateApp.init.add_sold_food "はちみつ").sold_food.drop
        TemplateApp.init.sold_food.length).map SoldFood.time ∧
    ((TemplateApp.init.resetOp.undoOp).map TemplateApp.sold_food
      = some ((tailSlice TemplateApp.init.history).map orderReps).flatten) ∧
    ((TemplateApp.init.resetOp.undoOp).map (fun b => b.sold_food.map SoldFood.name)
      = some (TemplateApp.init.sold_food.map SoldFood.name))) :=
  ⟨Reachable.init,
   sale_timestamps_and_rebuild TemplateApp.init "はちみつ" Reachable.init⟩
